import Mathlib

/-!
Verification development for the bicycle state-space model and Kalman
observer repository.

The C++ scalar type `model::real_t` (a floating-point type) is modelled by
`ℚ`; the transcendental primitives used by the code (`std::cos`, `std::sin`,
`std::tan`, `std::sqrt`, `std::pow(·, 1.5)`, the constants `constants::g`,
`constants::pi`, `constants::two_pi` and Eigen's matrix exponential) are
collected in an environment structure `Env` of uninterpreted functions, so
every definition stays executable and every theorem quantifies over all
interpretations of those primitives.

Vectors are functions `Fin n → ℚ` and matrices are Mathlib `Matrix` values
over `ℚ`.  Eigen's `LLT::solve` (Cholesky solve against a positive-definite
matrix `M`) is modelled as multiplication by `matInv M`, an executable
matrix inverse; the state of an `Eigen::LLT` object is modelled by storing
the matrix it was computed from.

Two `model::Bicycle` classes exist in the sources: the one in
`src/src/bicycle.cc` (which owns discrete-time matrices `Ad`, `Bd`, a
sample time and an optional discretization lookup table) is embedded in
namespace `BikeOld`, and the one in `src/src/bicycle/bicycle.cc` (the base
class of `BicycleWhipple`, continuous-time only) is embedded in namespace
`Bike`.
-/

namespace BikeTest

/-- Environment of uninterpreted numeric primitives used by the C++ code:
trigonometric functions, square root, `pow(·, 1.5)`, physical constants and
the 7×7 matrix exponential used for discretization. -/
structure Env where
  cos : ℚ → ℚ
  sin : ℚ → ℚ
  tan : ℚ → ℚ
  sqrt : ℚ → ℚ
  pow15 : ℚ → ℚ
  g : ℚ
  pi : ℚ
  two_pi : ℚ
  mexp : Matrix (Fin 7) (Fin 7) ℚ → Matrix (Fin 7) (Fin 7) ℚ

/-- Executable matrix inverse over `ℚ`: `(det A)⁻¹ • adjugate A`.  This
agrees with Mathlib's noncomputable `A⁻¹` and models both `M.inverse()` and
`LLT(M).solve(·)` (applied to an invertible `M`) from the Eigen code. -/
def matInv {k : ℕ} (A : Matrix (Fin k) (Fin k) ℚ) : Matrix (Fin k) (Fin k) ℚ :=
  (A.det)⁻¹ • A.adjugate

/-- Truncation toward zero, as used by C `fmod`. -/
def rtrunc (q : ℚ) : ℤ :=
  if 0 ≤ q then ⌊q⌋ else ⌈q⌉

/-- Model of `std::fmod x y = x - trunc (x / y) * y`. -/
def fmod (x y : ℚ) : ℚ :=
  x - (rtrunc (x / y) : ℚ) * y

/-- Rounding to the nearest integer, used to quantize lookup-table keys. -/
def rround (q : ℚ) : ℤ :=
  ⌊q + 1 / 2⌋

/-- `std::numeric_limits<real_t>::digits * 2 / 3` for `real_t = double`:
the target precision of the pitch-constraint Newton iteration. -/
def newton_digits : ℕ :=
  53 * 2 / 3

/-- Modelled from the spec: the bounded Newton iteration of
`boost::math::tools::newton_raphson_iterate` (the Boost library is not part
of the sources).  Each step applies first-derivative feedback
`x ← x - f/f'`; a step leaving `[mn, mx]` is replaced by bisection toward
the violated bound, a zero residual stops the iteration, and when the
iteration budget is exhausted the current best estimate is returned. -/
def newton_go (f : ℚ → ℚ × ℚ) (mn mx : ℚ) : ℕ → ℚ → ℚ
  | 0, x => x
  | fuel + 1, x =>
      let p := f x
      if p.1 = 0 then x
      else
        let x' := x - p.1 / p.2
        let x'' := if x' < mn then (x + mn) / 2 else if mx < x' then (x + mx) / 2 else x'
        newton_go f mn mx fuel x''

/-- Modelled from the spec: `newton_raphson_iterate(f, guess, min, max,
digits)`, bounded to `[mn, mx]` and seeded at `guess`; `digits` bounds the
iteration budget.  Returns the best estimate when the budget runs out
rather than failing. -/
def newton_raphson_iterate (f : ℚ → ℚ × ℚ) (guess mn mx : ℚ) (digits : ℕ) : ℚ :=
  newton_go f mn mx digits (max mn (min guess mx))

end BikeTest

namespace BikeTest.Observer

open Matrix

/-!
### `observer::Kalman` (src/inc/kalman.h)

The class declaration lives in `src/inc/kalman.h`; the member-function
definitions are in `kalman.hh`, which is included by the header but is not
part of the available sources.  The measurement update is therefore
modelled from the spec.
-/

/-- Filter state of `observer::Kalman<T>` for a system with state size `n`
and output size `l`: state estimate `m_x`, Kalman gain `m_K`, error
covariance `m_P`, process noise covariance `m_Q`, measurement noise
covariance `m_R`, and the wrapped system's output matrix `m_C` (the model's
`C()`, used by `output` and in the gain computation). -/
structure Kalman (n l : ℕ) where
  m_C : Matrix (Fin l) (Fin n) ℚ
  m_x : Fin n → ℚ
  m_K : Matrix (Fin n) (Fin l) ℚ
  m_P : Matrix (Fin n) (Fin n) ℚ
  m_Q : Matrix (Fin n) (Fin n) ℚ
  m_R : Matrix (Fin l) (Fin l) ℚ

variable {n l : ℕ}

/-- Modelled from the spec: the output map `y = C x̂` used by the
measurement update (the input-free `calculate_output` of the wrapped
system).  The defining code (`kalman.hh`) is missing from the sources. -/
def output (k : Kalman n l) (x : Fin n → ℚ) : Fin l → ℚ :=
  k.m_C *ᵥ x

/-- Modelled from the spec: `measurementUpdate(z, R)` with a per-call
measurement noise covariance `R`.  Innovation covariance
`S = C P Cᵗ + R`; gain `K = P Cᵗ S⁻¹`; `x̂ ← x̂ + K (z − output x̂)`;
`P ← (I − K C) P`.  The stored `m_R` is not mutated.  The defining code
(`kalman.hh`) is missing from the sources. -/
def measurement_update_with_R (k : Kalman n l) (z : Fin l → ℚ)
    (R : Matrix (Fin l) (Fin l) ℚ) : Kalman n l :=
  let S := k.m_C * k.m_P * (k.m_C)ᵀ + R
  let K := k.m_P * (k.m_C)ᵀ * matInv S
  { k with
    m_K := K
    m_x := k.m_x + K *ᵥ (z - output k k.m_x)
    m_P := (1 - K * k.m_C) * k.m_P }

/-- Modelled from the spec: `measurementUpdate(z)`, which uses the stored
measurement noise covariance `m_R`.  The defining code (`kalman.hh`) is
missing from the sources. -/
def measurement_update (k : Kalman n l) (z : Fin l → ℚ) : Kalman n l :=
  measurement_update_with_R k z k.m_R

end BikeTest.Observer

namespace BikeTest.Bike

open Matrix

/-!
### `model::Bicycle` of src/src/bicycle/bicycle.cc (header
src/inc/bicycle/bicycle.h)

State size `n = 5` (`[yaw angle, roll angle, steer angle, roll rate,
steer rate]`), input size `m = 2`, output size `l = 2`, second-order size
`o = 2`, auxiliary size `p = 4`.
-/

/-- Data members of `model::Bicycle` (src/inc/bicycle/bicycle.h).
`m_M_llt` records the matrix from which the stored Cholesky decomposition
was last computed (`m_M_llt.compute(M)` in `set_M`). -/
structure Bicycle where
  m_v : ℚ
  m_M : Matrix (Fin 2) (Fin 2) ℚ
  m_C1 : Matrix (Fin 2) (Fin 2) ℚ
  m_K0 : Matrix (Fin 2) (Fin 2) ℚ
  m_K2 : Matrix (Fin 2) (Fin 2) ℚ
  m_w : ℚ
  m_c : ℚ
  m_lambda : ℚ
  m_rr : ℚ
  m_rf : ℚ
  m_d1 : ℚ
  m_d2 : ℚ
  m_d3 : ℚ
  m_recalculate_state_space : Bool
  m_recalculate_moore_parameters : Bool
  m_M_llt : Matrix (Fin 2) (Fin 2) ℚ
  m_A : Matrix (Fin 5) (Fin 5) ℚ
  m_B : Matrix (Fin 5) (Fin 2) ℚ
  m_C : Matrix (Fin 2) (Fin 5) ℚ
  m_D : Matrix (Fin 2) (Fin 2) ℚ

/-- `Bicycle::set_moore_parameters` (src/src/bicycle/bicycle.cc): sets the
Moore parameters `d1`, `d3`, `d2` from the geometry and clears the
Moore-parameter dirty flag. -/
def set_moore_parameters (env : Env) (b : Bicycle) : Bicycle :=
  let d1 := env.cos b.m_lambda * (b.m_c + b.m_w - b.m_rr * env.tan b.m_lambda)
  let d3 := -env.cos b.m_lambda * (b.m_c - b.m_rf * env.tan b.m_lambda)
  let d2 := (b.m_rr + d1 * env.sin b.m_lambda - b.m_rf + d3 * env.sin b.m_lambda) /
      env.cos b.m_lambda
  { b with m_d1 := d1, m_d2 := d2, m_d3 := d3, m_recalculate_moore_parameters := false }

/-- `Bicycle::set_state_space` (src/src/bicycle/bicycle.cc): fills the
speed-dependent entries of `A` (`A(0,2) = v cos λ / w`,
`A(0,4) = c cos λ / w`, `A.block<2,2>(1,3) = I`,
`A.block<2,2>(3,1) = -M_llt.solve(g K0 + v² K2)`,
`A.bottomRightCorner<2,2>() = -M_llt.solve(v C1)`), sets
`B.bottomRows<2>() = M.inverse()` and clears the dirty flag. -/
def set_state_space (env : Env) (b : Bicycle) : Bicycle :=
  let T1 : Matrix (Fin 2) (Fin 2) ℚ :=
    -(matInv b.m_M_llt * (env.g • b.m_K0 + (b.m_v * b.m_v) • b.m_K2))
  let T2 : Matrix (Fin 2) (Fin 2) ℚ := -(matInv b.m_M_llt * (b.m_v • b.m_C1))
  let A' : Matrix (Fin 5) (Fin 5) ℚ := Matrix.of fun i j =>
    match i.val, j.val with
    | 0, 2 => b.m_v * env.cos b.m_lambda / b.m_w
    | 0, 4 => b.m_c * env.cos b.m_lambda / b.m_w
    | 1, 3 => 1
    | 1, 4 => 0
    | 2, 3 => 0
    | 2, 4 => 1
    | 3, 1 => T1 0 0
    | 3, 2 => T1 0 1
    | 4, 1 => T1 1 0
    | 4, 2 => T1 1 1
    | 3, 3 => T2 0 0
    | 3, 4 => T2 0 1
    | 4, 3 => T2 1 0
    | 4, 4 => T2 1 1
    | _, _ => b.m_A i j
  let B' : Matrix (Fin 5) (Fin 2) ℚ := Matrix.of fun i j =>
    match i.val with
    | 3 => matInv b.m_M 0 j
    | 4 => matInv b.m_M 1 j
    | _ => b.m_B i j
  { b with m_A := A', m_B := B', m_recalculate_state_space := false }

/-- `Bicycle::set_v` (src/src/bicycle/bicycle.cc): stores the forward speed
and always recalculates the state space. -/
def set_v (env : Env) (b : Bicycle) (v : ℚ) : Bicycle :=
  set_state_space env { b with m_v := v }

/-- `Bicycle::set_M` (src/src/bicycle/bicycle.cc): stores `M`, recomputes
the Cholesky decomposition, then either recalculates the state space or
marks it dirty. -/
def set_M (env : Env) (b : Bicycle) (M : Matrix (Fin 2) (Fin 2) ℚ)
    (recalculate_state_space : Bool) : Bicycle :=
  let b' := { b with m_M := M, m_M_llt := M }
  if recalculate_state_space then set_state_space env b'
  else { b' with m_recalculate_state_space := true }

/-- `Bicycle::set_C1` (src/src/bicycle/bicycle.cc): stores `C1`, then
either recalculates the state space or marks it dirty. -/
def set_C1 (env : Env) (b : Bicycle) (C1 : Matrix (Fin 2) (Fin 2) ℚ)
    (recalculate_state_space : Bool) : Bicycle :=
  let b' := { b with m_C1 := C1 }
  if recalculate_state_space then set_state_space env b'
  else { b' with m_recalculate_state_space := true }

/-- `Bicycle::set_K0` (src/src/bicycle/bicycle.cc): stores `K0`, then
either recalculates the state space or marks it dirty. -/
def set_K0 (env : Env) (b : Bicycle) (K0 : Matrix (Fin 2) (Fin 2) ℚ)
    (recalculate_state_space : Bool) : Bicycle :=
  let b' := { b with m_K0 := K0 }
  if recalculate_state_space then set_state_space env b'
  else { b' with m_recalculate_state_space := true }

/-- `Bicycle::set_K2` (src/src/bicycle/bicycle.cc): stores `K2`, then
either recalculates the state space or marks it dirty. -/
def set_K2 (env : Env) (b : Bicycle) (K2 : Matrix (Fin 2) (Fin 2) ℚ)
    (recalculate_state_space : Bool) : Bicycle :=
  let b' := { b with m_K2 := K2 }
  if recalculate_state_space then set_state_space env b'
  else { b' with m_recalculate_state_space := true }

/-- `Bicycle::A` (src/src/bicycle/bicycle.cc): accessor returning the
stored continuous-time state matrix `m_A`. -/
def A (b : Bicycle) : Matrix (Fin 5) (Fin 5) ℚ :=
  b.m_A

/-- `Bicycle::B` (src/src/bicycle/bicycle.cc): accessor returning the
stored continuous-time input matrix `m_B`. -/
def B (b : Bicycle) : Matrix (Fin 5) (Fin 2) ℚ :=
  b.m_B

/-- `Bicycle::normalize_state` (src/src/bicycle/bicycle.cc): wraps the yaw
(index 0), roll (index 1) and steer (index 2) angles with
`fmod(·, two_pi)`; the roll rate and steer rate (indices 3, 4) pass
through.  The member function reads no object state apart from the global
constant `two_pi`, so the object argument is dropped here. -/
def normalize_state (env : Env) (x : Fin 5 → ℚ) : Fin 5 → ℚ :=
  fun i => if i.val = 0 ∨ i.val = 1 ∨ i.val = 2 then fmod (x i) env.two_pi else x i

/-- The constraint function of `Bicycle::solve_constraint_pitch`
(src/src/bicycle/bicycle.cc, generated by `generate_pitch.py`): value and
first derivative of the wheel/ground contact constraint at `pitch`.
Repeated machine-generated subterms are named: `aa` is
`-sin(pitch) cos(roll) cos(steer) + sin(roll) sin(steer)`, `bb` is
`cos(pitch)² cos(roll)²`, `rad = sqrt(aa² + bb)`, `crt = sqrt(cos(roll)²)`
and `gg = aa cos(pitch) cos(roll) cos(steer) + sin(pitch) cos(pitch)
cos(roll)²`. -/
def constraint_pitch (env : Env) (b : Bicycle) (roll steer : ℚ) (pitch : ℚ) : ℚ × ℚ :=
  let sp := env.sin pitch
  let cp := env.cos pitch
  let sr := env.sin roll
  let cr := env.cos roll
  let ss := env.sin steer
  let cs := env.cos steer
  let aa := -sp * cr * cs + sr * ss
  let bb := cp ^ 2 * cr ^ 2
  let rad := env.sqrt (aa ^ 2 + bb)
  let crt := env.sqrt (cr ^ 2)
  let nn := (b.m_rf * bb + (b.m_d3 * rad + b.m_rf * aa) * aa) * crt +
      rad * (-b.m_d1 * crt * sp + b.m_d2 * crt * cp - b.m_rr * cr) * cr
  let gg := aa * cp * cr * cs + sp * cp * cr ^ 2
  let f0 := nn / (rad * crt)
  let f1 := nn * gg / (env.pow15 (aa ^ 2 + bb) * crt) +
      ((-b.m_d1 * crt * cp - b.m_d2 * crt * sp) * rad * cr +
        (-gg) * (-b.m_d1 * crt * sp + b.m_d2 * crt * cp - b.m_rr * cr) * cr / rad +
        (-(2 * b.m_rf) * sp * cp * cr ^ 2 - (b.m_d3 * rad + b.m_rf * aa) * cp * cr * cs +
          (b.m_d3 * (-gg) / rad - b.m_rf * cp * cr * cs) * aa) * crt) / (rad * crt)
  (f0, f1)

/-- `Bicycle::solve_constraint_pitch` (src/src/bicycle/bicycle.cc): runs
the bounded Newton iteration on the pitch constraint, bracketed to
`[-pi/2, pi/2]`, seeded at `guess`, targeting `newton_digits` digits. -/
def solve_constraint_pitch (env : Env) (b : Bicycle) (roll steer guess : ℚ) : ℚ :=
  newton_raphson_iterate (constraint_pitch env b roll steer) guess
    (-env.pi / 2) (env.pi / 2) newton_digits

/-- Type of the uninterpreted ODE stepper
(`boost::numeric::odeint::runge_kutta_dopri5::do_step`) for the
7-dimensional state+input vector of `BicycleWhipple::integrate_state`:
it takes the derivative function `(state, time) ↦ dxdt`, the initial
vector, the start time and the span, and returns the integrated vector. -/
def Stepper : Type :=
  ((Fin 7 → ℚ) → ℚ → (Fin 7 → ℚ)) → (Fin 7 → ℚ) → ℚ → ℚ → (Fin 7 → ℚ)

/-- `BicycleWhipple::integrate_state(t, x, u, z)`
(src/src/bicycle/whipple.cc): ignores `z`, stacks `[x; u]`, integrates the
derivative function `dxdt.head<5> = A xu.head<5>`,
`dxdt.segment<2>(3) += M_llt.solve(xu.segment<2>(5))`,
`dxdt.tail<2> = 0` over span `t` with the stepper, and returns the first
five components. -/
def whipple_integrate_state (b : Bicycle) (stepper : Stepper) (t : ℚ)
    (x : Fin 5 → ℚ) (u : Fin 2 → ℚ) (z : Fin 2 → ℚ) : Fin 5 → ℚ :=
  let xu : Fin 7 → ℚ := fun i =>
    if h : i.val < 5 then x ⟨i.val, h⟩ else u ⟨i.val - 5, by omega⟩
  let deriv : (Fin 7 → ℚ) → ℚ → (Fin 7 → ℚ) := fun w _t =>
    let hd : Fin 5 → ℚ := b.m_A *ᵥ fun i : Fin 5 => w (Fin.castLE (by norm_num) i)
    let sol : Fin 2 → ℚ := matInv b.m_M_llt *ᵥ fun j : Fin 2 => w ⟨5 + j.val, by omega⟩
    fun i =>
      if h3 : i.val < 3 then hd ⟨i.val, by omega⟩
      else if h5 : i.val < 5 then hd ⟨i.val, h5⟩ + sol ⟨i.val - 3, by omega⟩
      else 0
  let xout := stepper deriv xu 0 t
  fun i : Fin 5 => xout (Fin.castLE (by norm_num) i)

end BikeTest.Bike

namespace BikeTest.BikeOld

open Matrix

/-!
### `model::Bicycle` of src/src/bicycle.cc

The older class: it owns a sample time, the discrete-time matrices
`m_Ad`, `m_Bd`, the effective stiffness `m_K` and an optional
caller-supplied discretization lookup table.  Its header (the older
`bicycle.h`) is not among the sources; the field list below is
reconstructed from the members used by src/src/bicycle.cc, and the lookup
table is an association list from quantized `(v, dt)` keys to `(Ad, Bd)`
pairs. -/

/-- One lookup-table value: a precomputed `(Ad, Bd)` pair. -/
def StateSpaceMapValue : Type :=
  Matrix (Fin 5) (Fin 5) ℚ × Matrix (Fin 5) (Fin 2) ℚ

/-- Data members of the older `model::Bicycle` (src/src/bicycle.cc). -/
structure Bicycle where
  m_M : Matrix (Fin 2) (Fin 2) ℚ
  m_C1 : Matrix (Fin 2) (Fin 2) ℚ
  m_K0 : Matrix (Fin 2) (Fin 2) ℚ
  m_K2 : Matrix (Fin 2) (Fin 2) ℚ
  m_w : ℚ
  m_c : ℚ
  m_lambda : ℚ
  m_rr : ℚ
  m_rf : ℚ
  m_v : ℚ
  m_dt : ℚ
  m_K : Matrix (Fin 2) (Fin 2) ℚ
  m_d1 : ℚ
  m_d2 : ℚ
  m_d3 : ℚ
  m_recalculate_state_space : Bool
  m_recalculate_moore_parameters : Bool
  m_M_llt : Matrix (Fin 2) (Fin 2) ℚ
  m_A : Matrix (Fin 5) (Fin 5) ℚ
  m_B : Matrix (Fin 5) (Fin 2) ℚ
  m_Ad : Matrix (Fin 5) (Fin 5) ℚ
  m_Bd : Matrix (Fin 5) (Fin 2) ℚ
  m_C : Matrix (Fin 2) (Fin 5) ℚ
  m_D : Matrix (Fin 2) (Fin 2) ℚ
  m_discrete_state_space_map : Option (List ((ℤ × ℤ) × StateSpaceMapValue))

/-- Modelled from the spec: `Bicycle::make_state_space_map_key(v, dt)`.
The defining code (the older `bicycle.h` header) is missing from the
sources; per the spec the key is `(v, dt)` "quantized/rounded consistently
to form a stable key", realized here by rounding after scaling by a fixed
precision of 10³. -/
def make_state_space_map_key (v dt : ℚ) : ℤ × ℤ :=
  (rround (v * 1000), rround (dt * 1000))

/-- First association found for key `k` in an association list. -/
def assoc_find {α β : Type} [DecidableEq α] : List (α × β) → α → Option β
  | [], _ => none
  | kv :: rest, k => if kv.1 = k then some kv.2 else assoc_find rest k

/-- `Bicycle::discrete_state_space_lookup` (src/src/bicycle.cc): consults
the caller-supplied map, if any, for key `k`.  The C++ version writes the
found `(Ad, Bd)` into the object and reports success; here the found pair
is returned and stored by the caller `set_v_dt`. -/
def discrete_state_space_lookup (b : Bicycle) (k : ℤ × ℤ) : Option StateSpaceMapValue :=
  match b.m_discrete_state_space_map with
  | none => none
  | some m => assoc_find m k

/-- `Bicycle::initialize_state_space_matrices` (src/src/bicycle.cc): zeroes
`A`, `B`, `Ad`, `Bd`, sets the constant entries `A(0,4) = c cos λ / w` and
`A.block<2,2>(1,3) = I`, and computes the Cholesky decomposition of `M`. -/
def initialize_state_space_matrices (env : Env) (b : Bicycle) : Bicycle :=
  let A0 : Matrix (Fin 5) (Fin 5) ℚ := Matrix.of fun i j =>
    match i.val, j.val with
    | 0, 4 => b.m_c * env.cos b.m_lambda / b.m_w
    | 1, 3 => 1
    | 1, 4 => 0
    | 2, 3 => 0
    | 2, 4 => 1
    | _, _ => 0
  { b with m_A := A0, m_B := 0, m_Ad := 0, m_Bd := 0, m_M_llt := b.m_M }

/-- `Bicycle::set_v_dt` (src/src/bicycle.cc): re-initializes the constant
matrix parts if the dirty flag is set, stores `v`, `dt` and the effective
stiffness `K = g K0 + v² K2`, fills the speed-dependent entries of `A`
(`A(0,2) = v cos λ / w`, `A.block<2,2>(3,1) = -M_llt.solve(K)`,
`A.bottomRightCorner<2,2>() = -M_llt.solve(v C1)`), sets
`B.bottomRows<2>() = M.inverse()` (the `o < 5` branch is taken since
`o = 2`), and then computes the discrete matrices: identity/zero for
`dt = 0`, the lookup-table entry when one matches, and otherwise the
matrix exponential of the `dt`-scaled augmented block matrix
`[[A, B], [0, 0]]` (the validation of its bottom rows only prints a
warning and does not change the result). -/
def set_v_dt (env : Env) (b : Bicycle) (v dt : ℚ) : Bicycle :=
  let b1 := if b.m_recalculate_state_space then initialize_state_space_matrices env b else b
  let K := env.g • b1.m_K0 + (v * v) • b1.m_K2
  let T1 : Matrix (Fin 2) (Fin 2) ℚ := -(matInv b1.m_M_llt * K)
  let T2 : Matrix (Fin 2) (Fin 2) ℚ := -(matInv b1.m_M_llt * (v • b1.m_C1))
  let A' : Matrix (Fin 5) (Fin 5) ℚ := Matrix.of fun i j =>
    match i.val, j.val with
    | 0, 2 => v * env.cos b1.m_lambda / b1.m_w
    | 3, 1 => T1 0 0
    | 3, 2 => T1 0 1
    | 4, 1 => T1 1 0
    | 4, 2 => T1 1 1
    | 3, 3 => T2 0 0
    | 3, 4 => T2 0 1
    | 4, 3 => T2 1 0
    | 4, 4 => T2 1 1
    | _, _ => b1.m_A i j
  let B' : Matrix (Fin 5) (Fin 2) ℚ := Matrix.of fun i j =>
    match i.val with
    | 3 => matInv b1.m_M 0 j
    | 4 => matInv b1.m_M 1 j
    | _ => b1.m_B i j
  let b2 := { b1 with m_v := v, m_dt := dt, m_K := K, m_A := A', m_B := B' }
  let b3 :=
    if dt = 0 then { b2 with m_Ad := 1, m_Bd := 0 }
    else
      match discrete_state_space_lookup b2 (make_state_space_map_key v dt) with
      | some p => { b2 with m_Ad := p.1, m_Bd := p.2 }
      | none =>
          let AT : Matrix (Fin 7) (Fin 7) ℚ := dt • Matrix.of fun i j =>
            if hi : i.val < 5 then
              if hj : j.val < 5 then A' ⟨i.val, hi⟩ ⟨j.val, hj⟩
              else B' ⟨i.val, hi⟩ ⟨j.val - 5, by omega⟩
            else 0
          let T := env.mexp AT
          { b2 with
            m_Ad := Matrix.of fun i j : Fin 5 =>
              T (Fin.castLE (by norm_num) i) (Fin.castLE (by norm_num) j)
            m_Bd := Matrix.of fun (i : Fin 5) (j : Fin 2) =>
              T (Fin.castLE (by norm_num) i) ⟨5 + j.val, by omega⟩ }
  { b3 with m_recalculate_state_space := false }

/-- `Bicycle::update_state(x, u)` (src/src/bicycle.cc): one discrete step
`Ad x + Bd u`. -/
def update_state' (b : Bicycle) (x : Fin 5 → ℚ) (u : Fin 2 → ℚ) : Fin 5 → ℚ :=
  b.m_Ad *ᵥ x + b.m_Bd *ᵥ u

/-- `Bicycle::update_state(x, u, z)` (src/src/bicycle.cc): discards the
measurement `z` and delegates to the measurement-free overload. -/
def update_state (b : Bicycle) (x : Fin 5 → ℚ) (u : Fin 2 → ℚ) (z : Fin 2 → ℚ) :
    Fin 5 → ℚ :=
  update_state' b x u

end BikeTest.BikeOld

namespace BikeTest

open Matrix Observer

/-! ### Sample concrete data used by counterexamples and witnesses -/

/-- A concrete interpretation of the uninterpreted numeric primitives,
used to instantiate theorems at explicit inputs. -/
def sampleEnv : Env where
  cos := fun _ => 0
  sin := fun _ => 0
  tan := fun _ => 0
  sqrt := fun _ => 0
  pow15 := fun _ => 0
  g := 981 / 100
  pi := 355 / 113
  two_pi := 710 / 113
  mexp := fun _ => 0

/-- A concrete `Bike.Bicycle` (src/src/bicycle/bicycle.cc class) state. -/
def sampleBike : Bike.Bicycle where
  m_v := 1
  m_M := 1
  m_C1 := 0
  m_K0 := 0
  m_K2 := 0
  m_w := 1
  m_c := 0
  m_lambda := 0
  m_rr := 3 / 10
  m_rf := 7 / 20
  m_d1 := 0
  m_d2 := 0
  m_d3 := 0
  m_recalculate_state_space := false
  m_recalculate_moore_parameters := false
  m_M_llt := 1
  m_A := 0
  m_B := 0
  m_C := 0
  m_D := 0

/-- A concrete discretization lookup table holding placeholder matrices for
the key of `(v, dt) = (1/2, 1/200)`. -/
def sampleTable : List ((ℤ × ℤ) × BikeOld.StateSpaceMapValue) :=
  [(BikeOld.make_state_space_map_key (1 / 2) (1 / 200), ((2 : ℚ) • 1, 0))]

/-- A concrete `BikeOld.Bicycle` (src/src/bicycle.cc class) state carrying
`sampleTable` as its discretization lookup table. -/
def sampleOldBike : BikeOld.Bicycle where
  m_M := 1
  m_C1 := 0
  m_K0 := 0
  m_K2 := 0
  m_w := 1
  m_c := 0
  m_lambda := 0
  m_rr := 3 / 10
  m_rf := 7 / 20
  m_v := 1
  m_dt := 1 / 200
  m_K := 0
  m_d1 := 0
  m_d2 := 0
  m_d3 := 0
  m_recalculate_state_space := false
  m_recalculate_moore_parameters := false
  m_M_llt := 1
  m_A := 0
  m_B := 0
  m_Ad := 0
  m_Bd := 0
  m_C := 0
  m_D := 0
  m_discrete_state_space_map := some sampleTable

/-! ### Helper lemmas about `rtrunc` and `fmod` -/

theorem rtrunc_nonneg {q : ℚ} (h : 0 ≤ q) : rtrunc q = ⌊q⌋ := by
  simp [rtrunc, h]

theorem rtrunc_neg {q : ℚ} (h : ¬ 0 ≤ q) : rtrunc q = ⌈q⌉ := by
  simp [rtrunc, h]

/-- The fractional part left by truncation lies in `(-1, 1)`. -/
theorem sub_rtrunc_lt_one (q : ℚ) : q - (rtrunc q : ℚ) < 1 ∧ -1 < q - (rtrunc q : ℚ) := by
  by_cases h : 0 ≤ q
  · rw [rtrunc_nonneg h]
    constructor
    · linarith [Int.sub_one_lt_floor q]
    · linarith [Int.floor_le q]
  · rw [rtrunc_neg h]
    constructor
    · linarith [Int.le_ceil q]
    · linarith [Int.ceil_lt_add_one q]

/-- `rtrunc` vanishes on `(-1, 1)`. -/
theorem rtrunc_eq_zero {q : ℚ} (h1 : q < 1) (h2 : -1 < q) : rtrunc q = 0 := by
  by_cases h : 0 ≤ q
  · rw [rtrunc_nonneg h]
    exact Int.floor_eq_zero_iff.mpr ⟨h, h1⟩
  · rw [rtrunc_neg h]
    push_neg at h
    have hub : ⌈q⌉ ≤ 0 := Int.ceil_le.mpr (by exact_mod_cast h.le)
    have hlb : (-1 : ℤ) < ⌈q⌉ := Int.lt_ceil.mpr (by exact_mod_cast h2)
    omega

/-- `fmod` is idempotent in its first argument. -/
theorem fmod_fmod (x y : ℚ) : fmod (fmod x y) y = fmod x y := by
  by_cases hy : y = 0
  · simp [fmod, hy]
  · have key : rtrunc (fmod x y / y) = 0 := by
      have hq : fmod x y / y = x / y - (rtrunc (x / y) : ℚ) := by
        rw [fmod, sub_div, mul_div_assoc, div_self hy, mul_one]
      rw [hq]
      exact rtrunc_eq_zero (sub_rtrunc_lt_one (x / y)).1 (sub_rtrunc_lt_one (x / y)).2
    have hdef : fmod (fmod x y) y = fmod x y - (rtrunc (fmod x y / y) : ℚ) * y := rfl
    rw [hdef, key]
    simp

/-- `fmod x y` differs from `x` by an integer multiple of `y`. -/
theorem fmod_congruent (x y : ℚ) : ∃ k : ℤ, fmod x y = x - (k : ℚ) * y :=
  ⟨rtrunc (x / y), rfl⟩

/-- `newton_go` never leaves the bracket `[mn, mx]`. -/
theorem newton_go_mem (f : ℚ → ℚ × ℚ) (mn mx : ℚ) (fuel : ℕ) (x : ℚ)
    (hmn : mn ≤ x) (hmx : x ≤ mx) :
    mn ≤ newton_go f mn mx fuel x ∧ newton_go f mn mx fuel x ≤ mx := by
  induction fuel generalizing x with
  | zero => exact ⟨hmn, hmx⟩
  | succ fuel ih =>
      rw [newton_go]
      by_cases hf : (f x).1 = 0
      · simp only [hf, if_pos rfl]
        exact ⟨hmn, hmx⟩
      · simp only [hf, if_neg, if_false]
        set x' := x - (f x).1 / (f x).2 with hx'
        by_cases hlo : x' < mn
        · rw [if_pos hlo]
          exact ih _ (by linarith) (by linarith)
        · rw [if_neg hlo]
          by_cases hhi : mx < x'
          · rw [if_pos hhi]
            exact ih _ (by linarith) (by linarith)
          · rw [if_neg hhi]
            exact ih _ (by linarith) (by linarith)

/-! ### Claim theorems -/

/-- C1: for every filter state `(x̂, P)` and measurement `z`, the
measurement update computes `S = C P Cᵗ + R` with the stored `R`, the gain
`K = P Cᵗ S⁻¹`, replaces `x̂` by `x̂ + K (z − output x̂)` and `P` by
`(I − K C) P`; supplying a per-call `R` override leaves the stored `R`
unchanged. -/
theorem kalman_measurement_update_spec {n l : ℕ} (k : Kalman n l)
    (z : Fin l → ℚ) (Rover : Matrix (Fin l) (Fin l) ℚ) :
    (measurement_update k z).m_K
        = k.m_P * (k.m_C)ᵀ * matInv (k.m_C * k.m_P * (k.m_C)ᵀ + k.m_R) ∧
    (measurement_update k z).m_x
        = k.m_x + (k.m_P * (k.m_C)ᵀ * matInv (k.m_C * k.m_P * (k.m_C)ᵀ + k.m_R))
            *ᵥ (z - k.m_C *ᵥ k.m_x) ∧
    (measurement_update k z).m_P
        = (1 - (k.m_P * (k.m_C)ᵀ * matInv (k.m_C * k.m_P * (k.m_C)ᵀ + k.m_R)) * k.m_C)
            * k.m_P ∧
    (measurement_update_with_R k z Rover).m_R = k.m_R ∧
    (measurement_update k z).m_R = k.m_R :=
  ⟨rfl, rfl, rfl, rfl, rfl⟩

/-- C2: for every environment, state and speed, `set_v_dt(v, 0)` sets
`Ad` to the identity and `Bd` to zero. -/
theorem set_v_dt_zero_sample_time (env : Env) (b : BikeOld.Bicycle) (v : ℚ) :
    (BikeOld.set_v_dt env b v 0).m_Ad = 1 ∧ (BikeOld.set_v_dt env b v 0).m_Bd = 0 := by
  cases hb : b.m_recalculate_state_space <;>
    simp [BikeOld.set_v_dt, hb]

/-- C9: the state-transition operations ignore the measurement argument:
`update_state(x, u, z)` equals `Ad x + Bd u` for every `z`, and
`BicycleWhipple::integrate_state` returns the same result for every `z`. -/
theorem state_transition_ignores_measurement (b : BikeOld.Bicycle)
    (bw : Bike.Bicycle) (stepper : Bike.Stepper) (t : ℚ)
    (x : Fin 5 → ℚ) (u : Fin 2 → ℚ) (z1 z2 : Fin 2 → ℚ) :
    BikeOld.update_state b x u z1 = BikeOld.update_state b x u z2 ∧
    BikeOld.update_state b x u z1 = b.m_Ad *ᵥ x + b.m_Bd *ᵥ u ∧
    Bike.whipple_integrate_state bw stepper t x u z1
      = Bike.whipple_integrate_state bw stepper t x u z2 :=
  ⟨rfl, rfl, rfl⟩

/-- C5: mutating `C1` or `K0` with the defer-recompute flag false changes
only the stored parameter and the need-recalculate flag; in particular the
state matrices `A` and `B` are untouched. -/
theorem set_C1_set_K0_defer_frame (env : Env) (b : Bike.Bicycle)
    (C1' K0' : Matrix (Fin 2) (Fin 2) ℚ) :
    Bike.set_C1 env b C1' false
        = { b with m_C1 := C1', m_recalculate_state_space := true } ∧
    Bike.set_K0 env b K0' false
        = { b with m_K0 := K0', m_recalculate_state_space := true } :=
  ⟨rfl, rfl⟩

/-- C10: `normalize_state` is idempotent. -/
theorem normalize_state_idempotent (env : Env) (x : Fin 5 → ℚ) :
    Bike.normalize_state env (Bike.normalize_state env x) = Bike.normalize_state env x := by
  funext i
  by_cases h : i.val = 0 ∨ i.val = 1 ∨ i.val = 2 <;>
    simp [Bike.normalize_state, h, fmod_fmod]

/-- C7: `normalize_state` replaces the yaw, roll and steer angles by values
congruent to the originals modulo one full turn (in particular yaw
`3·(2π) + θ` goes to a value `≡ θ` mod `2π`), and leaves the roll rate and
steer rate unchanged. -/
theorem normalize_state_wraps_angles (env : Env) (x : Fin 5 → ℚ) :
    (∃ k : ℤ, Bike.normalize_state env x 0 = x 0 - (k : ℚ) * env.two_pi) ∧
    (∃ k : ℤ, Bike.normalize_state env x 1 = x 1 - (k : ℚ) * env.two_pi) ∧
    (∃ k : ℤ, Bike.normalize_state env x 2 = x 2 - (k : ℚ) * env.two_pi) ∧
    Bike.normalize_state env x 3 = x 3 ∧
    Bike.normalize_state env x 4 = x 4 ∧
    ∀ θ : ℚ, ∃ k : ℤ,
      Bike.normalize_state env (fun j => if j.val = 0 then 3 * env.two_pi + θ else x j) 0
        = θ + (k : ℚ) * env.two_pi := by
  refine ⟨?_, ?_, ?_, ?_, ?_, ?_⟩
  · refine ⟨rtrunc (x 0 / env.two_pi), ?_⟩
    simp [Bike.normalize_state, fmod]
  · refine ⟨rtrunc (x 1 / env.two_pi), ?_⟩
    simp [Bike.normalize_state, fmod]
  · refine ⟨rtrunc (x 2 / env.two_pi), ?_⟩
    simp [Bike.normalize_state, fmod]
  · simp [Bike.normalize_state]
    intro h
    exact absurd h (by decide)
  · simp [Bike.normalize_state]
    intro h
    exact absurd h (by decide)
  · intro θ
    refine ⟨3 - rtrunc ((3 * env.two_pi + θ) / env.two_pi), ?_⟩
    have h0 : Bike.normalize_state env
        (fun j => if j.val = 0 then 3 * env.two_pi + θ else x j) 0
        = fmod (3 * env.two_pi + θ) env.two_pi := by
      simp [Bike.normalize_state]
    rw [h0, fmod]
    push_cast
    ring

/-- C3: when the caller-supplied lookup table contains an entry for the
key of `(v, dt)` with `dt ≠ 0`, `set_v_dt` stores exactly the table's
`(Ad, Bd)` pair, and the result does not depend on the matrix-exponential
function at all (the exponential is skipped). -/
theorem set_v_dt_lookup_hit (env : Env) (b : BikeOld.Bicycle) (v dt : ℚ)
    (tbl : List ((ℤ × ℤ) × BikeOld.StateSpaceMapValue))
    (Adt : Matrix (Fin 5) (Fin 5) ℚ) (Bdt : Matrix (Fin 5) (Fin 2) ℚ)
    (hmap : b.m_discrete_state_space_map = some tbl)
    (hfind : BikeOld.assoc_find tbl (BikeOld.make_state_space_map_key v dt)
      = some (Adt, Bdt))
    (hdt : dt ≠ 0) :
    (BikeOld.set_v_dt env b v dt).m_Ad = Adt ∧
    (BikeOld.set_v_dt env b v dt).m_Bd = Bdt ∧
    ∀ E, BikeOld.set_v_dt { env with mexp := E } b v dt
      = BikeOld.set_v_dt env b v dt := by
  cases hb : b.m_recalculate_state_space <;>
    simp [BikeOld.set_v_dt, BikeOld.discrete_state_space_lookup,
      BikeOld.initialize_state_space_matrices, hb, hmap, hfind, hdt]

/-- Witness for C3 at the concrete table `sampleTable` and
`(v, dt) = (1/2, 1/200)`. -/
theorem set_v_dt_lookup_hit_witness :
    (sampleOldBike.m_discrete_state_space_map = some sampleTable ∧
     BikeOld.assoc_find sampleTable
        (BikeOld.make_state_space_map_key (1 / 2) (1 / 200)) = some ((2 : ℚ) • 1, 0) ∧
     (1 / 200 : ℚ) ≠ 0) ∧
    ((BikeOld.set_v_dt sampleEnv sampleOldBike (1 / 2) (1 / 200)).m_Ad = (2 : ℚ) • 1 ∧
     (BikeOld.set_v_dt sampleEnv sampleOldBike (1 / 2) (1 / 200)).m_Bd = 0 ∧
     ∀ E, BikeOld.set_v_dt { sampleEnv with mexp := E } sampleOldBike (1 / 2) (1 / 200)
        = BikeOld.set_v_dt sampleEnv sampleOldBike (1 / 2) (1 / 200)) :=
  ⟨⟨rfl, by simp [sampleTable, BikeOld.assoc_find], by norm_num⟩,
    set_v_dt_lookup_hit sampleEnv sampleOldBike (1 / 2) (1 / 200) sampleTable
      ((2 : ℚ) • 1) 0 rfl (by simp [sampleTable, BikeOld.assoc_find]) (by norm_num)⟩

/-- C6: after `set_v` (which recalculates the state space at speed `v`),
provided the stored Cholesky decomposition is the one of the current `M`,
the state matrix satisfies `A(0, 2) = v cos λ / w`, the block at rows 3..4
and columns 1..2 equals `-M⁻¹ (g K0 + v² K2)`, and the bottom-right 2×2
block equals `-M⁻¹ (v C1)`. -/
theorem set_v_fills_speed_entries (env : Env) (b : Bike.Bicycle) (v : ℚ)
    (h : b.m_M_llt = b.m_M) :
    (Bike.set_v env b v).m_A 0 2 = v * env.cos b.m_lambda / b.m_w ∧
    Matrix.submatrix (Bike.set_v env b v).m_A ![3, 4] ![1, 2]
      = -(matInv b.m_M * (env.g • b.m_K0 + (v * v) • b.m_K2)) ∧
    Matrix.submatrix (Bike.set_v env b v).m_A ![3, 4] ![3, 4]
      = -(matInv b.m_M * (v • b.m_C1)) := by
  refine ⟨rfl, ?_, ?_⟩
  · ext i j
    fin_cases i <;> fin_cases j
    · show (Bike.set_v env b v).m_A 3 1
        = -(matInv b.m_M * (env.g • b.m_K0 + (v * v) • b.m_K2)) 0 0
      rw [show (Bike.set_v env b v).m_A 3 1
        = -(matInv b.m_M_llt * (env.g • b.m_K0 + (v * v) • b.m_K2)) 0 0 from rfl, h]
    · show (Bike.set_v env b v).m_A 3 2
        = -(matInv b.m_M * (env.g • b.m_K0 + (v * v) • b.m_K2)) 0 1
      rw [show (Bike.set_v env b v).m_A 3 2
        = -(matInv b.m_M_llt * (env.g • b.m_K0 + (v * v) • b.m_K2)) 0 1 from rfl, h]
    · show (Bike.set_v env b v).m_A 4 1
        = -(matInv b.m_M * (env.g • b.m_K0 + (v * v) • b.m_K2)) 1 0
      rw [show (Bike.set_v env b v).m_A 4 1
        = -(matInv b.m_M_llt * (env.g • b.m_K0 + (v * v) • b.m_K2)) 1 0 from rfl, h]
    · show (Bike.set_v env b v).m_A 4 2
        = -(matInv b.m_M * (env.g • b.m_K0 + (v * v) • b.m_K2)) 1 1
      rw [show (Bike.set_v env b v).m_A 4 2
        = -(matInv b.m_M_llt * (env.g • b.m_K0 + (v * v) • b.m_K2)) 1 1 from rfl, h]
  · ext i j
    fin_cases i <;> fin_cases j
    · show (Bike.set_v env b v).m_A 3 3 = -(matInv b.m_M * (v • b.m_C1)) 0 0
      rw [show (Bike.set_v env b v).m_A 3 3
        = -(matInv b.m_M_llt * (v • b.m_C1)) 0 0 from rfl, h]
    · show (Bike.set_v env b v).m_A 3 4 = -(matInv b.m_M * (v • b.m_C1)) 0 1
      rw [show (Bike.set_v env b v).m_A 3 4
        = -(matInv b.m_M_llt * (v • b.m_C1)) 0 1 from rfl, h]
    · show (Bike.set_v env b v).m_A 4 3 = -(matInv b.m_M * (v • b.m_C1)) 1 0
      rw [show (Bike.set_v env b v).m_A 4 3
        = -(matInv b.m_M_llt * (v • b.m_C1)) 1 0 from rfl, h]
    · show (Bike.set_v env b v).m_A 4 4 = -(matInv b.m_M * (v • b.m_C1)) 1 1
      rw [show (Bike.set_v env b v).m_A 4 4
        = -(matInv b.m_M_llt * (v • b.m_C1)) 1 1 from rfl, h]

/-- Witness for C6 at a concrete state with `M_llt` in sync with `M`. -/
theorem set_v_fills_speed_entries_witness :
    sampleBike.m_M_llt = sampleBike.m_M ∧
    ((Bike.set_v sampleEnv sampleBike 2).m_A 0 2
        = 2 * sampleEnv.cos sampleBike.m_lambda / sampleBike.m_w ∧
     Matrix.submatrix (Bike.set_v sampleEnv sampleBike 2).m_A ![3, 4] ![1, 2]
        = -(matInv sampleBike.m_M *
            (sampleEnv.g • sampleBike.m_K0 + ((2 : ℚ) * 2) • sampleBike.m_K2)) ∧
     Matrix.submatrix (Bike.set_v sampleEnv sampleBike 2).m_A ![3, 4] ![3, 4]
        = -(matInv sampleBike.m_M * ((2 : ℚ) • sampleBike.m_C1))) :=
  ⟨rfl, set_v_fills_speed_entries sampleEnv sampleBike 2 rfl⟩

/-- C4 counterexample: a state left dirty by `set_C1(C1', false)` on which
the accessor `A()` does not return matrices reflecting the mutated
parameters — it returns the stale stored `m_A`, not the recomputed one. -/
theorem accessor_no_recompute_counterexample :
    ¬ (Bike.A (Bike.set_C1 sampleEnv sampleBike 1 false)
        = (Bike.set_state_space sampleEnv
            (Bike.set_C1 sampleEnv sampleBike 1 false)).m_A) := by
  intro hcl
  have h33 := congrArg (fun M : Matrix (Fin 5) (Fin 5) ℚ => M 3 3) hcl
  have hL : Bike.A (Bike.set_C1 sampleEnv sampleBike 1 false) 3 3 = 0 := rfl
  have hR : (Bike.set_state_space sampleEnv
      (Bike.set_C1 sampleEnv sampleBike 1 false)).m_A 3 3 = -1 := by
    rw [show (Bike.set_state_space sampleEnv
          (Bike.set_C1 sampleEnv sampleBike 1 false)).m_A 3 3
        = -(matInv (1 : Matrix (Fin 2) (Fin 2) ℚ) * ((1 : ℚ) • 1)) 0 0 from rfl]
    simp [matInv]
  simp only [hL, hR] at h33
  norm_num at h33

/-- C4 amended: mutating a parameter with defer-recompute sets the dirty
flag, but the accessors `A()`/`B()` return the stored matrices unchanged,
without recomputation. -/
theorem accessor_returns_stored_matrices (env : Env) (b : Bike.Bicycle)
    (C1' : Matrix (Fin 2) (Fin 2) ℚ) :
    Bike.A (Bike.set_C1 env b C1' false) = b.m_A ∧
    Bike.B (Bike.set_C1 env b C1' false) = b.m_B ∧
    (Bike.set_C1 env b C1' false).m_recalculate_state_space = true :=
  ⟨rfl, rfl, rfl⟩

/-- C8: `solve_constraint_pitch` always returns (no exception) a pitch
inside the bracket `[-pi/2, pi/2]`, for every roll, steer and initial
guess, whether or not the Newton iteration (targeting `newton_digits`,
two-thirds of the double significand) converged. -/
theorem solve_constraint_pitch_bounded (env : Env) (b : Bike.Bicycle)
    (roll steer guess : ℚ) (h : 0 ≤ env.pi) :
    -env.pi / 2 ≤ Bike.solve_constraint_pitch env b roll steer guess ∧
    Bike.solve_constraint_pitch env b roll steer guess ≤ env.pi / 2 := by
  have h1 : -env.pi / 2 ≤ max (-env.pi / 2) (min guess (env.pi / 2)) :=
    le_max_left _ _
  have h2 : max (-env.pi / 2) (min guess (env.pi / 2)) ≤ env.pi / 2 :=
    max_le (by linarith) (min_le_right _ _)
  unfold Bike.solve_constraint_pitch newton_raphson_iterate
  exact newton_go_mem _ _ _ _ _ h1 h2

/-- Witness for C8 at a concrete environment with positive `pi`. -/
theorem solve_constraint_pitch_bounded_witness :
    0 ≤ sampleEnv.pi ∧
    (-sampleEnv.pi / 2 ≤ Bike.solve_constraint_pitch sampleEnv sampleBike 0 0 0 ∧
     Bike.solve_constraint_pitch sampleEnv sampleBike 0 0 0 ≤ sampleEnv.pi / 2) :=
  ⟨by norm_num [sampleEnv],
    solve_constraint_pitch_bounded sampleEnv sampleBike 0 0 0 (by norm_num [sampleEnv])⟩

end BikeTest
